import Mathlib

/-!
Shallow embedding of the LSP inlay-hint cache and refresh coordinator of
`crates/editor/src/inlays/inlay_hints.rs`.

Pure settings/policy logic (`LspInlayHintData` and its methods) is translated
function-for-function.  The stateful refresh path (`Editor::refresh_inlay_hints`
and the completion closure it spawns) is modelled as explicit state passing:
`Editor.refresh_inlay_hints` consumes an editor state plus the visible-excerpt
environment supplied by the multibuffer collaborator and returns the new state
together with the emitted effects (splices and provider fetches), while
`Editor.completeFetch` runs the body of one spawned fetch task on the state it
finds at completion time.
-/

namespace InlayHints

/-- LSP inlay hint kinds (from the `language` collaborator crate). -/
inductive InlayHintKind where
  | type
  | parameter
deriving DecidableEq

/-- Modelled from the spec: the allowed-kind filter is a set of optional hint
kinds (`None` meaning kind-less/other); represented by its three membership
flags, mirroring `enabled_inlay_hint_kinds` of the settings collaborator. -/
structure KindSet where
  showType : Bool
  showParameter : Bool
  showOther : Bool
deriving DecidableEq

/-- Modelled from the spec: the slice of `InlayHintSettings` this subsystem
reads (enabled flag, the two debounce durations, and the kind filter flags). -/
structure InlayHintSettings where
  enabled : Bool
  edit_debounce_ms : Nat
  scroll_debounce_ms : Nat
  show_type_hints : Bool
  show_parameter_hints : Bool
  show_other_hints : Bool
deriving DecidableEq

def InlayHintSettings.enabled_inlay_hint_kinds (s : InlayHintSettings) : KindSet :=
  ⟨s.show_type_hints, s.show_parameter_hints, s.show_other_hints⟩

/-- Modelled from the spec: `debounce_value` of the editor crate turns a
configured millisecond count into an optional duration, none when zero. -/
def debounce_value (ms : Nat) : Option Nat :=
  if ms = 0 then none else some ms

/-- Modelled from the spec: the version-clock collaborator (`clock::Global`),
a per-document vector clock; `changed_since other` holds when some component
of `self` exceeds the corresponding component of `other`. -/
def Version : Type := List Nat

instance : DecidableEq Version := inferInstanceAs (DecidableEq (List Nat))

def Version.changed_since (v other : Version) : Bool :=
  (List.range (List.length v)).any
    (fun i => Nat.blt (List.getD other i 0) (List.getD v i 0))

/-- One raw hint record as returned by the provider; positions are buffer
offsets (anchors resolved against the buffer snapshot). -/
structure LspHint where
  position : Nat
  label : String
  kind : Option InlayHintKind
  padding_left : Bool
  padding_right : Bool
deriving DecidableEq

/-- One inlay in the display layer (`Inlay::hint` keeps the allocated id, the
projected multibuffer position and the hint payload). -/
structure Inlay where
  id : Nat
  position : Nat
  label : String
deriving DecidableEq

def Inlay.hint (id : Nat) (position : Nat) (lsp_hint : LspHint) : Inlay :=
  ⟨id, position, lsp_hint.label⟩

structure InlaySplice where
  to_remove : List Nat
  to_insert : List Inlay
deriving DecidableEq

/-- Association-list lookup with decidable key equality (models `HashMap::get`). -/
def lookupKey {α β : Type} [DecidableEq α] (k : α) : List (α × β) → Option β
  | [] => none
  | (k', v') :: rest => if k' = k then some v' else lookupKey k rest

/-- Association-list insert that replaces an existing binding of the same key
(models `HashMap::insert`, which drops the previous value). -/
def insertReplace {α β : Type} [DecidableEq α] (k : α) (v : β) :
    List (α × β) → List (α × β)
  | [] => [(k, v)]
  | (k', v') :: rest =>
    if k' = k then (k, v) :: rest else (k', v') :: insertReplace k v rest

/-- Association-list removal of a key's binding (models `HashMap::remove`). -/
def removeKey {α β : Type} [DecidableEq α] (k : α) :
    List (α × β) → List (α × β)
  | [] => []
  | (k', v') :: rest => if k' = k then rest else (k', v') :: removeKey k rest

/-- `LspInlayHintData`: the per-editor hint policy and fetch state.  Task
handles are represented by the numeric task id registered under the
per-buffer row-range key. -/
structure LspInlayHintData where
  enabled : Bool
  modifiers_override : Bool
  enabled_in_settings : Bool
  allowed_hint_kinds : KindSet
  invalidate_debounce : Option Nat
  append_debounce : Option Nat
  inlays_for_version : Option Version
  inlay_tasks : List (Nat × List ((Nat × Nat) × Nat))
deriving DecidableEq

def LspInlayHintData.new (settings : InlayHintSettings) : LspInlayHintData where
  modifiers_override := false
  enabled := settings.enabled
  enabled_in_settings := settings.enabled
  inlays_for_version := none
  inlay_tasks := []
  invalidate_debounce := debounce_value settings.edit_debounce_ms
  append_debounce := debounce_value settings.scroll_debounce_ms
  allowed_hint_kinds := settings.enabled_inlay_hint_kinds

/-- `LspInlayHintData::clear`: clears only the task registry. -/
def LspInlayHintData.clear (d : LspInlayHintData) : LspInlayHintData :=
  { d with inlay_tasks := [] }

/-- `LspInlayHintData::modifiers_override` (named apart from the field of the
same name): returns the updated state and the method's `Option<bool>`. -/
def LspInlayHintData.set_modifiers_override (d : LspInlayHintData)
    (new_override : Bool) : LspInlayHintData × Option Bool :=
  if d.modifiers_override = new_override then (d, none)
  else
    let d := { d with modifiers_override := new_override }
    if (d.enabled && d.modifiers_override) || (!d.enabled && !d.modifiers_override) then
      (d.clear, some false)
    else
      (d, some true)

/-- `LspInlayHintData::toggle`: returns the updated state and whether anything
changed. -/
def LspInlayHintData.toggle (d : LspInlayHintData) (enabled : Bool) :
    LspInlayHintData × Bool :=
  if d.enabled = enabled then (d, false)
  else
    let d := { d with enabled := enabled, modifiers_override := false }
    (if enabled then d else d.clear, true)

/-- Result of `update_settings`, mirroring `ControlFlow<Option<InlaySplice>>`;
`panicked` marks the `todo!("TODO kb")` arm, which panics in the source. -/
inductive SettingsFlow where
  | breakNone
  | breakSplice (splice : InlaySplice)
  | continueFetch
  | panicked
deriving DecidableEq

/-- `LspInlayHintData::update_settings`. -/
def LspInlayHintData.update_settings (d : LspInlayHintData)
    (new_hint_settings : InlayHintSettings) (visible_hints : List Inlay) :
    LspInlayHintData × SettingsFlow :=
  let old_enabled := d.enabled
  let d :=
    if new_hint_settings.enabled ≠ d.enabled_in_settings then
      { d with
        enabled := new_hint_settings.enabled
        enabled_in_settings := new_hint_settings.enabled
        modifiers_override := false }
    else d
  let d :=
    { d with
      invalidate_debounce := debounce_value new_hint_settings.edit_debounce_ms
      append_debounce := debounce_value new_hint_settings.scroll_debounce_ms }
  let new_allowed_hint_kinds := new_hint_settings.enabled_inlay_hint_kinds
  match old_enabled, d.enabled with
  | false, false =>
    ({ d with allowed_hint_kinds := new_allowed_hint_kinds }, .breakNone)
  | true, true =>
    if new_allowed_hint_kinds = d.allowed_hint_kinds then (d, .breakNone)
    else (d, .panicked)
  | true, false =>
    let d := { d with modifiers_override := false, allowed_hint_kinds := new_allowed_hint_kinds }
    if visible_hints.isEmpty then (d, .breakNone)
    else
      (d.clear,
        .breakSplice ⟨visible_hints.map (fun inlay => inlay.id), []⟩)
  | false, true =>
    ({ d with modifiers_override := false, allowed_hint_kinds := new_allowed_hint_kinds },
      .continueFetch)

/-- `InvalidationStrategy`. -/
inductive InvalidationStrategy where
  | refreshRequested
  | bufferEdited
  | noInvalidation
deriving DecidableEq

def InvalidationStrategy.should_invalidate : InvalidationStrategy → Bool
  | .refreshRequested => true
  | .bufferEdited => true
  | .noInvalidation => false

/-- `InlayHintRefreshReason` (the language set of `BufferEdited` and the server
id of `RefreshRequested` are never read by the refresh path and are elided). -/
inductive InlayHintRefreshReason where
  | modifiersChanged (enabled : Bool)
  | toggle (enabled : Bool)
  | settingsChange (new_settings : InlayHintSettings)
  | newLinesShown
  | bufferEdited
  | refreshRequested
  | excerptsRemoved (excerpts : List Nat)
deriving DecidableEq

/-- One entry of the `visible_excerpts` environment: the excerpt id, its
buffer id and version, the fetched anchor (offset) range, the derived row
range, and whether the semantics provider accepts the buffer (the provider
returns `None` otherwise). -/
structure VisibleExcerpt where
  excerpt_id : Nat
  buffer_id : Nat
  buffer_version : Version
  anchor_start : Nat
  anchor_end : Nat
  row_start : Nat
  row_end : Nat
  provider_supported : Bool
deriving DecidableEq

/-- The data captured by one spawned fetch task. -/
structure FetchTask where
  tid : Nat
  excerpt_id : Nat
  buffer_id : Nat
  buffer_version : Version
  anchor_start : Nat
  anchor_end : Nat
  row_start : Nat
  row_end : Nat
  should_invalidate : Bool
deriving DecidableEq

/-- Externally visible effects of the refresh path. -/
inductive Effect where
  | splice (to_remove : List Nat) (to_insert : List Inlay)
  | providerFetch (t : FetchTask)
deriving DecidableEq

def Effect.isFetch : Effect → Bool
  | .providerFetch _ => true
  | .splice _ _ => false

/-- The slice of editor state the refresh path touches. -/
structure Editor where
  mode_is_full : Bool
  has_semantics_provider : Bool
  inlay_hints : Option LspInlayHintData
  next_inlay_id : Nat
  next_task_id : Nat
  visible_inlays : List Inlay
deriving DecidableEq

/-- `Editor::splice_inlays` restricted to the hint layer: removes the listed
ids from the display map and appends the new inlays. -/
def Editor.splice_inlays (ed : Editor) (to_remove : List Nat)
    (to_insert : List Inlay) : Editor :=
  { ed with
    visible_inlays :=
      (ed.visible_inlays.filter (fun inlay => !(to_remove.contains inlay.id))) ++ to_insert }

/-- The per-excerpt loop of `Editor::refresh_inlay_hints`: issues one provider
fetch per visible excerpt and registers the spawned task under the buffer's
row-range key (`HashMap::insert`, superseding any previous task for that
key); an unsupported buffer makes the whole function return early. -/
def issueFetches (ed : Editor) (strategy : InvalidationStrategy) :
    List VisibleExcerpt → List Effect → Editor × List Effect
  | [], effects => (ed, effects)
  | e :: rest, effects =>
    match ed.inlay_hints with
    | none => (ed, effects)
    | some ih =>
      if !e.provider_supported then (ed, effects)
      else
        let t : FetchTask :=
          ⟨ed.next_task_id, e.excerpt_id, e.buffer_id, e.buffer_version,
            e.anchor_start, e.anchor_end, e.row_start, e.row_end,
            strategy.should_invalidate⟩
        let buffer_map := (lookupKey e.buffer_id ih.inlay_tasks).getD []
        let ih :=
          { ih with
            inlay_tasks :=
              insertReplace e.buffer_id
                (insertReplace (e.row_start, e.row_end) t.tid buffer_map)
                ih.inlay_tasks }
        issueFetches
          { ed with inlay_hints := some ih, next_task_id := ed.next_task_id + 1 }
          strategy rest (effects ++ [Effect.providerFetch t])

/-- `Editor::refresh_inlay_hints`.  The `SettingsChange` and `ExcerptsRemoved`
arms return immediately, exactly as the placeholder arms in the source do. -/
def Editor.refresh_inlay_hints (ed : Editor) (reason : InlayHintRefreshReason)
    (excerpts : List VisibleExcerpt) : Editor × List Effect :=
  if !ed.mode_is_full || !ed.has_semantics_provider then (ed, [])
  else
    match ed.inlay_hints with
    | none => (ed, [])
    | some ih =>
      match reason with
      | .modifiersChanged enabled =>
        match ih.set_modifiers_override enabled with
        | (ih', some true) =>
          issueFetches { ed with inlay_hints := some ih' } .refreshRequested excerpts []
        | (ih', some false) =>
          let ids := ed.visible_inlays.map (fun inlay => inlay.id)
          (Editor.splice_inlays { ed with inlay_hints := some ih' } ids [],
            [Effect.splice ids []])
        | (_, none) => (ed, [])
      | .toggle enabled =>
        match ih.toggle enabled with
        | (ih', true) =>
          if enabled then
            issueFetches { ed with inlay_hints := some ih' } .refreshRequested excerpts []
          else
            let ids := ed.visible_inlays.map (fun inlay => inlay.id)
            (Editor.splice_inlays { ed with inlay_hints := some ih' } ids [],
              [Effect.splice ids []])
        | (_, false) => (ed, [])
      | .settingsChange _ => (ed, [])
      | .excerptsRemoved _ => (ed, [])
      | .newLinesShown => issueFetches ed .noInvalidation excerpts []
      | .bufferEdited => issueFetches ed .bufferEdited excerpts []
      | .refreshRequested => issueFetches ed .refreshRequested excerpts []

/-- Itertools `dedup`: collapses runs of consecutive equal records to one. -/
def dedupConsecutive : List LspHint → List LspHint
  | [] => []
  | a :: rest =>
    match rest with
    | [] => [a]
    | b :: _ =>
      if a = b then dedupConsecutive rest
      else a :: dedupConsecutive rest

/-- The `filter_map` of the completion closure: keeps a record only when its
position lies within the queried anchor range (inclusive at both ends) and
`anchor_in_excerpt` projects it into the multibuffer (`proj`); allocates ids
with `post_inc` only for records that survive both checks. -/
def buildInsertions (anchor_start anchor_end : Nat) (proj : Nat → Option Nat) :
    Nat → List LspHint → Nat × List Inlay
  | nid, [] => (nid, [])
  | nid, lsp_hint :: rest =>
    if anchor_start ≤ lsp_hint.position ∧ lsp_hint.position ≤ anchor_end then
      match proj lsp_hint.position with
      | some position =>
        let tail := buildInsertions anchor_start anchor_end proj (nid + 1) rest
        (tail.1, Inlay.hint nid position lsp_hint :: tail.2)
      | none => buildInsertions anchor_start anchor_end proj nid rest
    else buildInsertions anchor_start anchor_end proj nid rest

/-- The body of the spawned fetch task, run at completion time against the
editor state it finds.  `result` is the provider outcome (the nested lists
mirror the response's map-of-maps of records, flattened in order),
`buffer_present` whether `buffer_for_excerpt` still resolves the excerpt, and
`proj` the `anchor_in_excerpt` projection.  Returns the new editor state and
the splice handed to the display layer, if any. -/
def Editor.completeFetch (ed : Editor) (t : FetchTask)
    (result : Except Unit (List (List (List LspHint))))
    (buffer_present : Bool) (proj : Nat → Option Nat) :
    Editor × Option InlaySplice :=
  let visible_ids := ed.visible_inlays.map (fun inlay => inlay.id)
  if !buffer_present then (ed, none)
  else
    match ed.inlay_hints with
    | none => (ed, none)
    | some ih =>
      let buffer_map := (lookupKey t.buffer_id ih.inlay_tasks).getD []
      match result with
      | .error _ =>
        let ih :=
          { ih with
            inlay_tasks :=
              insertReplace t.buffer_id
                (removeKey (t.row_start, t.row_end) buffer_map) ih.inlay_tasks }
        ({ ed with inlay_hints := some ih }, none)
      | .ok new_hints =>
        if ih.inlays_for_version.all
            (fun v => !(Version.changed_since v t.buffer_version)) then
          let hints_to_remove :=
            if t.should_invalidate
                || (match ih.inlays_for_version with
                    | none => true
                    | some v => Version.changed_since t.buffer_version v) then
              visible_ids
            else []
          let flat := new_hints.flatten.flatten
          let built :=
            buildInsertions t.anchor_start t.anchor_end proj ed.next_inlay_id
              (dedupConsecutive flat)
          let ih :=
            { ih with
              inlays_for_version := some t.buffer_version
              inlay_tasks :=
                insertReplace t.buffer_id
                  (removeKey (t.row_start, t.row_end) buffer_map) ih.inlay_tasks }
          let ed := { ed with inlay_hints := some ih, next_inlay_id := built.1 }
          (Editor.splice_inlays ed hints_to_remove built.2,
            some ⟨hints_to_remove, built.2⟩)
        else
          let ih :=
            { ih with
              inlay_tasks :=
                insertReplace t.buffer_id
                  (removeKey (t.row_start, t.row_end) buffer_map) ih.inlay_tasks }
          ({ ed with inlay_hints := some ih }, none)

/-- The task id currently registered for a buffer's row-range key. -/
def registryTid (ed : Editor) (buffer_id : Nat) (rows : Nat × Nat) : Option Nat :=
  match ed.inlay_hints with
  | none => none
  | some ih => lookupKey rows ((lookupKey buffer_id ih.inlay_tasks).getD [])

/-- Whether a task is still the registered one for its key (its handle has
not been superseded or cleared). -/
def Editor.taskRegistered (ed : Editor) (t : FetchTask) : Bool :=
  match registryTid ed t.buffer_id (t.row_start, t.row_end) with
  | some tid => tid == t.tid
  | none => false

/-- Modelled from the spec (gpui collaborator): a task handle is cancelled
when dropped, so a superseded or cleared task's body never runs; only the
task still registered under its key can execute its completion. -/
def Editor.runFetchCompletion (ed : Editor) (t : FetchTask)
    (result : Except Unit (List (List (List LspHint))))
    (buffer_present : Bool) (proj : Nat → Option Nat) :
    Editor × Option InlaySplice :=
  if ed.taskRegistered t then ed.completeFetch t result buffer_present proj
  else (ed, none)

/-- `n` successive `BufferEdited` refreshes against the same visible excerpt. -/
def issueRepeat (ed : Editor) (e : VisibleExcerpt) : Nat → Editor
  | 0 => ed
  | n + 1 => ((issueRepeat ed e n).refresh_inlay_hints .bufferEdited [e]).1

/-! Concrete sample states used to evaluate the model on specific inputs. -/

/-- Hints enabled, type-only filter, 700 ms edit debounce, 50 ms scroll debounce. -/
def sampleSettings : InlayHintSettings :=
  ⟨true, 700, 50, true, false, false⟩

/-- Same enabled state as `sampleSettings` but a different kind filter. -/
def kindOnlySettings : InlayHintSettings :=
  ⟨true, 700, 50, false, true, false⟩

def sampleIh : LspInlayHintData := LspInlayHintData.new sampleSettings

def sampleEditor : Editor :=
  { mode_is_full := true
    has_semantics_provider := true
    inlay_hints := some sampleIh
    next_inlay_id := 0
    next_task_id := 0
    visible_inlays := [] }

def sampleExcerpt : VisibleExcerpt :=
  ⟨0, 1, [1], 0, 100, 5, 10, true⟩

/-- The first task issued from `sampleEditor` for `sampleExcerpt` (superseded
once a second fetch is issued for the same row-range key). -/
def supersededTask : FetchTask :=
  ⟨0, 0, 1, [1], 0, 100, 5, 10, true⟩

/-- Hint state with no recorded version and an empty task registry. -/
def emptyIh : LspInlayHintData :=
  { enabled := true
    modifiers_override := false
    enabled_in_settings := true
    allowed_hint_kinds := ⟨true, true, true⟩
    invalidate_debounce := none
    append_debounce := none
    inlays_for_version := none
    inlay_tasks := [] }

/-- Editor with one visible hint (id 7) and no recorded cache version. -/
def edC4 : Editor :=
  { mode_is_full := true
    has_semantics_provider := true
    inlay_hints := some emptyIh
    next_inlay_id := 10
    next_task_id := 1
    visible_inlays := [⟨7, 3, "x"⟩] }

/-- A fetch task spawned with the non-invalidating strategy (`NewLinesShown`). -/
def tC4 : FetchTask :=
  ⟨0, 0, 1, [1], 0, 100, 5, 10, false⟩

/-- Editor for the duplicate-preservation scenario. -/
def edC5 : Editor :=
  { mode_is_full := true
    has_semantics_provider := true
    inlay_hints := some emptyIh
    next_inlay_id := 0
    next_task_id := 1
    visible_inlays := [] }

def tC5 : FetchTask :=
  ⟨0, 0, 1, [1], 0, 100, 5, 10, true⟩

/-- Five provider records at one position: `move`, `(`, `&x`, `)`, `)` — the
last two identical (the scenario of `test_inlays_at_the_same_place`). -/
def hintsC5 : List LspHint :=
  [⟨16, "move", none, false, false⟩,
   ⟨16, "(", none, false, false⟩,
   ⟨16, "&x", none, false, false⟩,
   ⟨16, ")", none, false, true⟩,
   ⟨16, ")", none, false, true⟩]

def edC6 : Editor := edC5

def tC6 : FetchTask := tC5

/-- Three provider records: one in range and projectable, one outside the
queried range, one in range whose position fails to project. -/
def hintsC6 : List LspHint :=
  [⟨16, "in", none, false, false⟩,
   ⟨200, "out", none, false, false⟩,
   ⟨50, "lost", none, false, false⟩]

/-- Projection that fails exactly at offset 50. -/
def projC6 : Nat → Option Nat :=
  fun p => if p = 50 then none else some p

/-- Hint state with one registered task (buffer 1, rows 5..10, task id 0). -/
def ihC9 : LspInlayHintData :=
  { emptyIh with inlay_tasks := [(1, [((5, 10), 0)])] }

def edC9 : Editor :=
  { mode_is_full := true
    has_semantics_provider := true
    inlay_hints := some ihC9
    next_inlay_id := 0
    next_task_id := 1
    visible_inlays := [] }

/-- The task registered in `edC9`. -/
def tC9 : FetchTask :=
  ⟨0, 0, 1, [1], 0, 100, 5, 10, true⟩

/-- Editor with no inlay-hint state allocated. -/
def edNoState : Editor :=
  { mode_is_full := true
    has_semantics_provider := true
    inlay_hints := none
    next_inlay_id := 0
    next_task_id := 0
    visible_inlays := [⟨3, 0, "v"⟩] }

/-! Helper lemmas about the association-list registry and the
reconciliation pipeline. -/

theorem lookupKey_insertReplace_self {α β : Type} [DecidableEq α] (k : α)
    (v : β) (l : List (α × β)) :
    lookupKey k (insertReplace k v l) = some v := by
  induction l with
  | nil => simp [insertReplace, lookupKey]
  | cons p rest ihl =>
    obtain ⟨k', v'⟩ := p
    by_cases hk : k' = k
    · subst hk
      simp [insertReplace, lookupKey]
    · simp [insertReplace, lookupKey, hk, ihl]

theorem lookupKey_eq_none_of_not_mem {α β : Type} [DecidableEq α] (k : α)
    (l : List (α × β)) (h : k ∉ l.map Prod.fst) :
    lookupKey k l = none := by
  induction l with
  | nil => simp [lookupKey]
  | cons p rest ihl =>
    obtain ⟨k', v'⟩ := p
    simp only [List.map_cons, List.mem_cons, not_or] at h
    have hk : k' ≠ k := fun hc => h.1 hc.symm
    simp [lookupKey, hk, ihl h.2]

theorem lookupKey_removeKey_self {α β : Type} [DecidableEq α] (k : α)
    (l : List (α × β)) (h : (l.map Prod.fst).Nodup) :
    lookupKey k (removeKey k l) = none := by
  induction l with
  | nil => simp [removeKey, lookupKey]
  | cons p rest ihl =>
    obtain ⟨k', v'⟩ := p
    simp only [List.map_cons, List.nodup_cons] at h
    by_cases hk : k' = k
    · subst hk
      simpa [removeKey] using lookupKey_eq_none_of_not_mem k' rest h.1
    · simp [removeKey, hk, lookupKey, ihl h.2]

theorem mem_of_mem_dedupConsecutive (l : List LspHint) (x : LspHint)
    (hx : x ∈ dedupConsecutive l) : x ∈ l := by
  induction l with
  | nil => simp [dedupConsecutive] at hx
  | cons a rest ihl =>
    cases rest with
    | nil => simpa [dedupConsecutive] using hx
    | cons b rest2 =>
      by_cases hab : a = b
      · have hx2 : x ∈ dedupConsecutive (b :: rest2) := by
          simpa [dedupConsecutive, hab] using hx
        exact List.mem_cons_of_mem a (ihl hx2)
      · have hx2 : x = a ∨ x ∈ dedupConsecutive (b :: rest2) := by
          simpa [dedupConsecutive, hab] using hx
        rcases hx2 with rfl | hx2
        · exact List.mem_cons_self x (b :: rest2)
        · exact List.mem_cons_of_mem a (ihl hx2)

theorem mem_buildInsertions (anchor_start anchor_end : Nat)
    (proj : Nat → Option Nat) :
    ∀ (l : List LspHint) (nid : Nat) (inlay : Inlay),
      inlay ∈ (buildInsertions anchor_start anchor_end proj nid l).2 →
      ∃ lh ∈ l, (anchor_start ≤ lh.position ∧ lh.position ≤ anchor_end) ∧
        proj lh.position = some inlay.position ∧ inlay.label = lh.label := by
  intro l
  induction l with
  | nil =>
    intro nid inlay hmem
    simp [buildInsertions] at hmem
  | cons hd rest ihl =>
    intro nid inlay hmem
    by_cases hr : anchor_start ≤ hd.position ∧ hd.position ≤ anchor_end
    · cases hproj : proj hd.position with
      | none =>
        rw [buildInsertions, if_pos hr, hproj] at hmem
        obtain ⟨lh, hlh, hprops⟩ := ihl _ _ hmem
        exact ⟨lh, List.mem_cons_of_mem hd hlh, hprops⟩
      | some pos =>
        rw [buildInsertions, if_pos hr, hproj] at hmem
        rcases List.mem_cons.mp hmem with rfl | hmem2
        · exact ⟨hd, List.mem_cons_self hd rest, hr, hproj, rfl⟩
        · obtain ⟨lh, hlh, hprops⟩ := ihl _ _ hmem2
          exact ⟨lh, List.mem_cons_of_mem hd hlh, hprops⟩
    · rw [buildInsertions, if_neg hr] at hmem
      obtain ⟨lh, hlh, hprops⟩ := ihl _ _ hmem
      exact ⟨lh, List.mem_cons_of_mem hd hlh, hprops⟩

/-- One `BufferEdited` refresh over one supported excerpt: the provider fetch
is dispatched immediately and the spawned task is registered under the
buffer's row-range key, superseding the previous binding. -/
theorem refresh_bufferEdited_step (ed : Editor) (ih : LspInlayHintData)
    (e : VisibleExcerpt)
    (hm : ed.mode_is_full = true) (hp : ed.has_semantics_provider = true)
    (hih : ed.inlay_hints = some ih) (hs : e.provider_supported = true) :
    ed.refresh_inlay_hints .bufferEdited [e] =
      ({ ed with
          next_task_id := ed.next_task_id + 1
          inlay_hints := some
            { ih with
              inlay_tasks :=
                insertReplace e.buffer_id
                  (insertReplace (e.row_start, e.row_end) ed.next_task_id
                    ((lookupKey e.buffer_id ih.inlay_tasks).getD []))
                  ih.inlay_tasks } },
        [Effect.providerFetch
          ⟨ed.next_task_id, e.excerpt_id, e.buffer_id, e.buffer_version,
            e.anchor_start, e.anchor_end, e.row_start, e.row_end, true⟩]) := by
  simp [Editor.refresh_inlay_hints, hm, hp, hih, issueFetches, hs,
    InvalidationStrategy.should_invalidate]

/-- Invariants of `n + 1` successive same-key `BufferEdited` refreshes: the
editor keeps its mode, provider and hint state, the task counter advances
once per issue, and the registry binds the key to the last-issued task id. -/
theorem issueRepeat_spec (ed : Editor) (ih : LspInlayHintData)
    (e : VisibleExcerpt)
    (hm : ed.mode_is_full = true) (hp : ed.has_semantics_provider = true)
    (hih : ed.inlay_hints = some ih) (hs : e.provider_supported = true) :
    ∀ n : Nat,
      (issueRepeat ed e (n + 1)).mode_is_full = true ∧
      (issueRepeat ed e (n + 1)).has_semantics_provider = true ∧
      (∃ ih2, (issueRepeat ed e (n + 1)).inlay_hints = some ih2) ∧
      (issueRepeat ed e (n + 1)).next_task_id = ed.next_task_id + (n + 1) ∧
      registryTid (issueRepeat ed e (n + 1)) e.buffer_id (e.row_start, e.row_end)
        = some (ed.next_task_id + n) := by
  intro n
  induction n with
  | zero =>
    have hstep := refresh_bufferEdited_step ed ih e hm hp hih hs
    have hun : issueRepeat ed e 1 = (ed.refresh_inlay_hints .bufferEdited [e]).1 := rfl
    rw [hun, hstep]
    refine ⟨hm, hp, ⟨_, rfl⟩, rfl, ?_⟩
    simp [registryTid, lookupKey_insertReplace_self]
  | succ n ihn =>
    obtain ⟨h1, h2, ⟨ih2, h3⟩, h4, -⟩ := ihn
    have hstep := refresh_bufferEdited_step (issueRepeat ed e (n + 1)) ih2 e h1 h2 h3 hs
    have hun : issueRepeat ed e (n + 1 + 1)
        = ((issueRepeat ed e (n + 1)).refresh_inlay_hints .bufferEdited [e]).1 := rfl
    rw [hun, hstep]
    refine ⟨h1, h2, ⟨_, rfl⟩, ?_, ?_⟩
    · show (issueRepeat ed e (n + 1)).next_task_id + 1 = ed.next_task_id + (n + 1 + 1)
      omega
    · simp [registryTid, lookupKey_insertReplace_self, h4]

/-- Claim C3: at most one in-flight fetch task is registered per exact
row-range key — after `n + 1` fetches are issued for one key before any
completes, the registry holds exactly the last-issued task id; completing
any superseded (other-id) task for that key is discarded without mutating
the editor or emitting a splice, while the last-issued task is still
registered and its completion is the one that actually runs. -/
theorem C3_at_most_one_inflight (ed : Editor) (ih : LspInlayHintData)
    (e : VisibleExcerpt) (n : Nat)
    (hm : ed.mode_is_full = true) (hp : ed.has_semantics_provider = true)
    (hih : ed.inlay_hints = some ih) (hs : e.provider_supported = true) :
    registryTid (issueRepeat ed e (n + 1)) e.buffer_id (e.row_start, e.row_end)
        = some (ed.next_task_id + n) ∧
    (∀ t : FetchTask, t.buffer_id = e.buffer_id → t.row_start = e.row_start →
      t.row_end = e.row_end → t.tid ≠ ed.next_task_id + n →
      ∀ result buffer_present proj,
        (issueRepeat ed e (n + 1)).runFetchCompletion t result buffer_present proj
          = (issueRepeat ed e (n + 1), none)) ∧
    (∀ t : FetchTask, t.buffer_id = e.buffer_id → t.row_start = e.row_start →
      t.row_end = e.row_end → t.tid = ed.next_task_id + n →
      ∀ result buffer_present proj,
        (issueRepeat ed e (n + 1)).runFetchCompletion t result buffer_present proj
          = (issueRepeat ed e (n + 1)).completeFetch t result buffer_present proj) := by
  obtain ⟨-, -, -, -, hreg⟩ := issueRepeat_spec ed ih e hm hp hih hs n
  refine ⟨hreg, ?_, ?_⟩
  · intro t hb hr1 hr2 hne result buffer_present proj
    have hregt : registryTid (issueRepeat ed e (n + 1)) t.buffer_id
        (t.row_start, t.row_end) = some (ed.next_task_id + n) := by
      rw [hb, hr1, hr2]
      exact hreg
    have hbeq : ((ed.next_task_id + n) == t.tid) = false :=
      beq_eq_false_iff_ne.mpr (fun hcc => hne hcc.symm)
    simp [Editor.runFetchCompletion, Editor.taskRegistered, hregt, hbeq]
  · intro t hb hr1 hr2 heq result buffer_present proj
    have hregt : registryTid (issueRepeat ed e (n + 1)) t.buffer_id
        (t.row_start, t.row_end) = some (ed.next_task_id + n) := by
      rw [hb, hr1, hr2]
      exact hreg
    simp [Editor.runFetchCompletion, Editor.taskRegistered, hregt, heq]

/-- Witness for C3: three fetches issued from `sampleEditor` for the key
(buffer 1, rows 5..10); task id 2 is the registered one and the completion
of the first-issued task (id 0) is discarded. -/
theorem C3_witness :
    registryTid (issueRepeat sampleEditor sampleExcerpt 3) 1 (5, 10) = some 2 ∧
    (issueRepeat sampleEditor sampleExcerpt 3).runFetchCompletion supersededTask
        (Except.ok []) true (fun p => some p)
      = (issueRepeat sampleEditor sampleExcerpt 3, none) := by
  have h := C3_at_most_one_inflight sampleEditor sampleIh sampleExcerpt 2 rfl rfl rfl rfl
  exact ⟨h.1, h.2.1 supersededTask rfl rfl rfl (by decide) _ _ _⟩

/-- Claim C10: when the editor is not in full mode, has no semantics
provider, or has no inlay-hint state allocated, `refresh_inlay_hints` is a
complete no-op for every refresh reason: the state is returned unchanged and
no splice or provider fetch is emitted. -/
theorem C10_refresh_noop (ed : Editor) (reason : InlayHintRefreshReason)
    (excerpts : List VisibleExcerpt)
    (h : ed.mode_is_full = false ∨ ed.has_semantics_provider = false ∨
      ed.inlay_hints = none) :
    ed.refresh_inlay_hints reason excerpts = (ed, []) := by
  rcases h with h | h | h
  · simp [Editor.refresh_inlay_hints, h]
  · simp [Editor.refresh_inlay_hints, h]
  · cases hm : ed.mode_is_full <;> cases hp : ed.has_semantics_provider <;>
      simp [Editor.refresh_inlay_hints, hm, hp, h]

/-- Witness for C10: an editor with no inlay-hint state allocated refreshes
to itself with no effects. -/
theorem C10_witness :
    edNoState.refresh_inlay_hints .newLinesShown [sampleExcerpt] = (edNoState, []) :=
  C10_refresh_noop edNoState .newLinesShown [sampleExcerpt] (Or.inr (Or.inr rfl))

/-- Claim C1 (code bug): in the source, the enabled-to-enabled settings
update with a changed kind filter panics in `update_settings` (the arm is
`todo!`), and the `SettingsChange` arm of `refresh_inlay_hints` returns
before doing any work — no re-filter diff is computed and no state changes,
for every editor state. -/
theorem C1_settings_change_placeholder :
    (∀ (ed : Editor) (s : InlayHintSettings) (excerpts : List VisibleExcerpt),
        ed.refresh_inlay_hints (.settingsChange s) excerpts = (ed, [])) ∧
    (sampleIh.update_settings kindOnlySettings []).2 = SettingsFlow.panicked := by
  constructor
  · intro ed s excerpts
    cases hm : ed.mode_is_full <;> cases hp : ed.has_semantics_provider <;>
      cases hih : ed.inlay_hints <;> simp [Editor.refresh_inlay_hints, hm, hp, hih]
  · decide

/-- Claim C7 (code bug): the `ExcerptsRemoved` arm of the source is a
placeholder that returns immediately — the refresh leaves the editor state,
including every buffer's cached hints and pending tasks, completely
unchanged and emits no effect, instead of removing the entries belonging to
the removed excerpts. -/
theorem C7_excerpts_removed_placeholder :
    ∀ (ed : Editor) (excerpts_removed : List Nat)
      (excerpts : List VisibleExcerpt),
      ed.refresh_inlay_hints (.excerptsRemoved excerpts_removed) excerpts
        = (ed, []) := by
  intro ed excerpts_removed excerpts
  cases hm : ed.mode_is_full <;> cases hp : ed.has_semantics_provider <;>
    cases hih : ed.inlay_hints <;> simp [Editor.refresh_inlay_hints, hm, hp, hih]

/-- Claim C2 (code bug): the debounce configuration is never consulted by the
refresh path — two `BufferEdited` refreshes in immediate succession each
dispatch a provider fetch for the same row-range key even though a 700 ms
edit debounce is configured; dispatch is not delayed at all. -/
theorem C2_no_debounce_immediate_dispatch :
    (sampleEditor.refresh_inlay_hints .bufferEdited [sampleExcerpt]).2.countP
        Effect.isFetch = 1 ∧
    ((sampleEditor.refresh_inlay_hints .bufferEdited [sampleExcerpt]).1.refresh_inlay_hints
        .bufferEdited [sampleExcerpt]).2.countP Effect.isFetch = 1 ∧
    sampleIh.invalidate_debounce = some 700 := by
  decide

/-- Claim C5 (code bug): the reconciliation pipeline passes the flattened
response through itertools `dedup`, so the two adjacent identical `)`
records collapse and only four of the five same-position records survive,
while the source's own test `test_inlays_at_the_same_place` requires all
five to be cached in server order. -/
theorem C5_adjacent_duplicate_collapsed :
    ((edC5.completeFetch tC5 (Except.ok [[hintsC5]]) true (fun p => some p)).2).map
        (fun s => s.to_insert.map (fun inlay => inlay.label))
      = some ["move", "(", "&x", ")"] ∧
    ((edC5.completeFetch tC5 (Except.ok [[hintsC5]]) true (fun p => some p)).2).map
        (fun s => s.to_insert.map (fun inlay => inlay.label))
      ≠ some ["move", "(", "&x", ")", ")"] := by
  constructor
  · decide
  · decide

/-- Counterexample to claim C4 as stated: with no recorded cache version, a
fetch spawned by the non-invalidating strategy still removes every visible
hint — the removal set is `[7]`, all visible ids, although the strategy does
not invalidate and no version change relative to a recorded version exists
(there is no recorded version at all). -/
theorem C4_counterexample :
    tC4.should_invalidate = false ∧
    edC4.inlay_hints.map (fun d => d.inlays_for_version) = some none ∧
    ((edC4.completeFetch tC4 (Except.ok []) true (fun p => some p)).2).map
        (fun s => s.to_remove) = some [7] ∧
    ([7] : List Nat) ≠ [] := by
  decide

/-- Claim C4 as amended: when a successful fetch passes the race guard, the
removal set equals all currently visible hint ids exactly when the strategy
invalidates, or the cache has no recorded version yet, or the document's
version changed since the recorded one; otherwise it is empty and the new
hints are purely additive. -/
theorem C4_staleness_decision (ed : Editor) (ih : LspInlayHintData)
    (t : FetchTask) (hints : List (List (List LspHint)))
    (proj : Nat → Option Nat)
    (hih : ed.inlay_hints = some ih)
    (hguard : ih.inlays_for_version.all
        (fun v => !(Version.changed_since v t.buffer_version)) = true) :
    ((ed.completeFetch t (Except.ok hints) true proj).2).map
        (fun s => s.to_remove)
      = some (if t.should_invalidate
            || (match ih.inlays_for_version with
                | none => true
                | some v => Version.changed_since t.buffer_version v) then
          ed.visible_inlays.map (fun inlay => inlay.id)
        else []) := by
  simp [Editor.completeFetch, hih, hguard]

/-- Witness for C4: instantiation at `edC4` — the guard passes and the
removal set follows the amended characterization. -/
theorem C4_witness :
    ((edC4.completeFetch tC4 (Except.ok []) true (fun p => some p)).2).map
        (fun s => s.to_remove)
      = some (if tC4.should_invalidate
            || (match emptyIh.inlays_for_version with
                | none => true
                | some v => Version.changed_since tC4.buffer_version v) then
          edC4.visible_inlays.map (fun inlay => inlay.id)
        else []) :=
  C4_staleness_decision edC4 emptyIh tC4 [] (fun p => some p) rfl rfl

/-- Claim C6: every hint inserted by a completed fetch comes from a response
record whose position lies within the queried anchor range, inclusive at
both ends, and which projects into the view; out-of-range or unprojectable
records are dropped individually while the fetch still completes with a
splice. -/
theorem C6_range_filter (ed : Editor) (ih : LspInlayHintData) (t : FetchTask)
    (hints : List (List (List LspHint))) (proj : Nat → Option Nat)
    (hih : ed.inlay_hints = some ih)
    (hguard : ih.inlays_for_version.all
        (fun v => !(Version.changed_since v t.buffer_version)) = true) :
    ∃ s, (ed.completeFetch t (Except.ok hints) true proj).2 = some s ∧
      ∀ inlay ∈ s.to_insert, ∃ lh ∈ hints.flatten.flatten,
        (t.anchor_start ≤ lh.position ∧ lh.position ≤ t.anchor_end) ∧
        proj lh.position = some inlay.position ∧ inlay.label = lh.label := by
  have hmain : (ed.completeFetch t (Except.ok hints) true proj).2
      = some ⟨(if t.should_invalidate
            || (match ih.inlays_for_version with
                | none => true
                | some v => Version.changed_since t.buffer_version v) then
          ed.visible_inlays.map (fun inlay => inlay.id)
        else []),
        (buildInsertions t.anchor_start t.anchor_end proj ed.next_inlay_id
          (dedupConsecutive hints.flatten.flatten)).2⟩ := by
    simp [Editor.completeFetch, hih, hguard]
  refine ⟨_, hmain, ?_⟩
  intro inlay hmem
  obtain ⟨lh, hlh, hprops⟩ :=
    mem_buildInsertions t.anchor_start t.anchor_end proj _ _ inlay hmem
  exact ⟨lh, mem_of_mem_dedupConsecutive _ _ hlh, hprops⟩

/-- Witness for C6: a response with one in-range projectable record, one
out-of-range record and one record whose position fails to project. -/
theorem C6_witness :
    ∃ s, (edC6.completeFetch tC6 (Except.ok [[hintsC6]]) true projC6).2 = some s ∧
      ∀ inlay ∈ s.to_insert, ∃ lh ∈ ([[hintsC6]] :
            List (List (List LspHint))).flatten.flatten,
        (tC6.anchor_start ≤ lh.position ∧ lh.position ≤ tC6.anchor_end) ∧
        projC6 lh.position = some inlay.position ∧ inlay.label = lh.label :=
  C6_range_filter edC6 emptyIh tC6 [[hintsC6]] projC6 rfl rfl

/-- Claim C8: a fetch completing with an error emits no splice, leaves the
visible hints and the cached version watermark exactly as they were, and
allocates no inlay ids; nothing further is scheduled. -/
theorem C8_error_leaves_cache (ed : Editor) (t : FetchTask)
    (buffer_present : Bool) (proj : Nat → Option Nat) :
    (ed.completeFetch t (Except.error ()) buffer_present proj).2 = none ∧
    (ed.completeFetch t (Except.error ()) buffer_present proj).1.visible_inlays
      = ed.visible_inlays ∧
    (ed.completeFetch t (Except.error ()) buffer_present proj).1.inlay_hints.map
        (fun d => d.inlays_for_version)
      = ed.inlay_hints.map (fun d => d.inlays_for_version) ∧
    (ed.completeFetch t (Except.error ()) buffer_present proj).1.next_inlay_id
      = ed.next_inlay_id := by
  cases buffer_present <;> cases hih : ed.inlay_hints <;>
    simp [Editor.completeFetch, hih]

/-- Counterexample to claim C9 as stated: a fetch whose excerpt no longer
resolves to a buffer runs to completion without deregistering — the task is
registered before and still registered after its completion. -/
theorem C9_counterexample :
    edC9.taskRegistered tC9 = true ∧
    edC9.completeFetch tC9 (Except.ok []) false (fun p => some p) = (edC9, none) ∧
    (edC9.completeFetch tC9 (Except.ok []) false (fun p => some p)).1.taskRegistered tC9
      = true := by
  decide

/-- Claim C9 as amended: every fetch task whose completion still finds its
excerpt's buffer in the view deregisters itself from the per-document
in-flight map under its row-range key — on success, failure, or race-guard
bailout alike; only a task whose excerpt vanished skips deregistration. -/
theorem C9_completion_deregisters (ed : Editor) (ih : LspInlayHintData)
    (t : FetchTask) (result : Except Unit (List (List (List LspHint))))
    (proj : Nat → Option Nat)
    (hih : ed.inlay_hints = some ih)
    (hnodup : ((((lookupKey t.buffer_id ih.inlay_tasks).getD []).map
        Prod.fst)).Nodup) :
    (ed.completeFetch t result true proj).1.taskRegistered t = false := by
  have hrk := lookupKey_removeKey_self (t.row_start, t.row_end)
    ((lookupKey t.buffer_id ih.inlay_tasks).getD []) hnodup
  cases result with
  | error err =>
    simp [Editor.completeFetch, hih, Editor.taskRegistered, registryTid,
      lookupKey_insertReplace_self, hrk]
  | ok hints =>
    cases hg : ih.inlays_for_version.all
        (fun v => !(Version.changed_since v t.buffer_version)) with
    | true =>
      simp [Editor.completeFetch, hih, hg, Editor.splice_inlays,
        Editor.taskRegistered, registryTid, lookupKey_insertReplace_self, hrk]
    | false =>
      simp [Editor.completeFetch, hih, hg, Editor.taskRegistered, registryTid,
        lookupKey_insertReplace_self, hrk]

/-- Witness for C9: the registered task of `edC9` completes with its buffer
still present and is deregistered. -/
theorem C9_witness :
    (edC9.completeFetch tC9 (Except.ok []) true (fun p => some p)).1.taskRegistered tC9
      = false :=
  C9_completion_deregisters edC9 ihC9 tC9 (Except.ok []) (fun p => some p) rfl
    (by decide)

end InlayHints
